import Mathlib

/-!
Verification of the eaglet client-side log collection pipeline
(`src/eagle-test/src/lib/collector.ts` and `src/eagle-test/src/lib/store.ts`)
against its natural-language specification.

The TypeScript source is shallowly embedded: every definition below is a
direct transcription of the corresponding source function, with the line
numbers given in its doc comment.  Browser-external behaviour (the HTTP
transport result, the IndexedDB success/failure of a write, the arrival of
new events while an `await` is suspended) is passed in as an explicit
parameter, exactly where the source awaits it.
-/

namespace Eaglet

/-- `LogLevel` from `types.ts`: the seven severity levels. -/
inductive LogLevel where
  | trace | debug | info | warn | error | fatal | critical
deriving DecidableEq, Repr

/-- `BreadcrumbType` from `types.ts`. -/
inductive BreadcrumbType where
  | click | navigation | xhr | console | custom | error
deriving DecidableEq, Repr

/-- `Breadcrumb` from `types.ts` (the optional `data` field carries no
structure relevant to the ring-buffer claims and is omitted). -/
structure Breadcrumb where
  timestamp : String
  type : BreadcrumbType
  message : String
deriving DecidableEq, Repr

/-- `LogEntry` from `types.ts`, restricted to the fields the queue, store
and delivery claims inspect (`id`, `level`, `message`); the remaining
enrichment fields ride along unexamined in the source paths modelled here. -/
structure LogEntry where
  id : Option String
  level : LogLevel
  message : String
deriving DecidableEq, Repr

/-!
## JSON values and field masking (collector.ts lines 695-714)

`maskSensitiveFields` first deep-copies its argument with
`JSON.parse(JSON.stringify(obj))`, so the value it traverses is exactly a
JSON value; we model those values directly (on this domain the
stringify/parse round trip is the identity, which is what the deep copy
computes).  JavaScript `for...in` enumerates object keys and array index
strings alike, and `typeof x === 'object'` holds for objects, arrays and
`null` (recursing into `null` is a no-op), so the traversal below checks
array index strings against `fieldsToMask` just as the source does.
-/

inductive Json where
  | null
  | bool (b : Bool)
  | num (n : Int)
  | str (s : String)
  | arr (xs : List Json)
  | obj (kvs : List (String × Json))

/-- `true` on the JSON values for which `typeof x === 'object'` is false
(plus `null`, into which the source recursion is a no-op). -/
def Json.isAtom : Json → Bool
  | .arr _ => false
  | .obj _ => false
  | _ => true

mutual

/-- `maskSensitiveFields` / `traverseAndMask`, collector.ts lines 695-714:
replace the value of every key whose name is in `fields` by `"********"`,
recursing into object- and array-valued entries of unmasked keys. -/
def maskJson (fields : List String) : Json → Json
  | Json.obj kvs => Json.obj (maskKVs fields kvs)
  | Json.arr xs => Json.arr (maskArr fields 0 xs)
  | j => j

/-- The `for (const key in current)` loop over an object's entries. -/
def maskKVs (fields : List String) : List (String × Json) → List (String × Json)
  | [] => []
  | (k, v) :: rest =>
    (if k ∈ fields then (k, Json.str "********") else (k, maskJson fields v)) :: maskKVs fields rest

/-- The `for (const key in current)` loop over an array: the enumerated
keys are the decimal index strings. -/
def maskArr (fields : List String) (i : Nat) : List Json → List Json
  | [] => []
  | v :: rest =>
    (if Nat.repr i ∈ fields then Json.str "********" else maskJson fields v) :: maskArr fields (i + 1) rest

end

/-- One step of a path into a JSON value: an object key or an array index. -/
inductive Step where
  | fld (s : String)
  | idx (n : Nat)

/-- The key name a step presents to `for...in`: array indices enumerate as
their decimal strings. -/
def Step.name : Step → String
  | .fld s => s
  | .idx n => Nat.repr n

/-- Follow one path step into a JSON value. -/
def getStep : Json → Step → Option Json
  | Json.obj kvs, Step.fld s => (kvs.find? (fun p => p.1 == s)).map Prod.snd
  | Json.arr xs, Step.idx n => xs[n]?
  | _, _ => none

/-- Follow a path into a JSON value. -/
def getPath (j : Json) : List Step → Option Json
  | [] => some j
  | st :: p => (getStep j st).bind (fun w => getPath w p)

end Eaglet
namespace Eaglet

lemma find?_maskKVs (fields : List String) (s : String) (kvs : List (String × Json)) :
    (maskKVs fields kvs).find? (fun p => p.1 == s)
      = (kvs.find? (fun p => p.1 == s)).map
          (fun p => if p.1 ∈ fields then (p.1, Json.str "********") else (p.1, maskJson fields p.2)) := by
  induction kvs with
  | nil => rfl
  | cons hd tl ih =>
    obtain ⟨k, v⟩ := hd
    by_cases hf : k ∈ fields <;> by_cases hks : (k == s) = true <;>
      simp [maskKVs, hf, List.find?, hks, ih]

lemma maskArr_getElem? (fields : List String) (xs : List Json) (i n : Nat) :
    (maskArr fields i xs)[n]? = (xs[n]?).map
      (fun v => if Nat.repr (i + n) ∈ fields then Json.str "********" else maskJson fields v) := by
  induction xs generalizing i n with
  | nil => simp [maskArr]
  | cons v rest ih =>
    cases n with
    | zero => simp [maskArr]
    | succ m =>
      have h1 : i + 1 + m = i + (m + 1) := by omega
      simpa [maskArr, h1] using ih (i + 1) m

lemma getStep_mask (fields : List String) (j : Json) (st : Step) :
    getStep (maskJson fields j) st
      = (getStep j st).map (fun v => if Step.name st ∈ fields then Json.str "********" else maskJson fields v) := by
  cases j with
  | obj kvs =>
    cases st with
    | fld s =>
      show getStep (Json.obj (maskKVs fields kvs)) (Step.fld s) = _
      simp only [getStep, find?_maskKVs, Option.map_map]
      cases hfind : kvs.find? (fun p => p.1 == s) with
      | none => rfl
      | some p =>
        have hps := List.find?_some hfind
        have heq : p.1 = s := by simpa using hps
        simp only [Option.map_some', Function.comp, Step.name, heq]
        by_cases hf : s ∈ fields <;> simp [hf]
    | idx n => rfl
  | arr xs =>
    cases st with
    | fld s => rfl
    | idx n =>
      show getStep (Json.arr (maskArr fields 0 xs)) (Step.idx n) = _
      simp only [getStep, maskArr_getElem?, Nat.zero_add, Step.name]
  | null => cases st <;> rfl
  | bool b => cases st <;> rfl
  | num n => cases st <;> rfl
  | str s => cases st <;> rfl

end Eaglet
namespace Eaglet

lemma getPath_append (j : Json) (p q : List Step) :
    getPath j (p ++ q) = (getPath j p).bind (fun w => getPath w q) := by
  induction p generalizing j with
  | nil => simp [getPath]
  | cons st p ih =>
    simp only [List.cons_append, getPath]
    cases getStep j st with
    | none => rfl
    | some w => simp [ih]

lemma getPath_str_cons (s : String) (st : Step) (l : List Step) :
    getPath (Json.str s) (st :: l) = none := by
  cases st <;> rfl

lemma getPath_mask_unmasked (fields : List String) (p : List Step) (j : Json)
    (h : ∀ st ∈ p, Step.name st ∉ fields) :
    getPath (maskJson fields j) p = (getPath j p).map (maskJson fields) := by
  induction p generalizing j with
  | nil => rfl
  | cons st p ih =>
    have hst : Step.name st ∉ fields := h st (by simp)
    simp only [getPath, getStep_mask]
    cases hgs : getStep j st with
    | none => rfl
    | some w =>
      simp only [Option.map_some', Option.bind_some, hst, if_neg]
      exact ih w (fun x hx => h x (by simp [hx]))

lemma getPath_mask_masked (fields : List String) (p : List Step) (j : Json) (st : Step) (v : Json)
    (hst : Step.name st ∈ fields)
    (h : getPath (maskJson fields j) (p ++ [st]) = some v) :
    v = Json.str "********" := by
  induction p generalizing j with
  | nil =>
    simp only [List.nil_append, getPath, getStep_mask] at h
    cases hgs : getStep j st with
    | none => rw [hgs] at h; simp at h
    | some w =>
      rw [hgs] at h
      simp [hst, getPath] at h
      exact h.symm
  | cons st' p ih =>
    simp only [List.cons_append, getPath, getStep_mask] at h
    cases hgs : getStep j st' with
    | none => rw [hgs] at h; simp at h
    | some w =>
      rw [hgs] at h
      by_cases hm : Step.name st' ∈ fields
      · simp only [Option.map_some', hm, if_pos, List.append_eq] at h
        replace h : getPath (Json.str "********") (p ++ [st]) = some v := by
          simpa using h
        obtain ⟨a, l, hal⟩ := List.exists_cons_of_ne_nil
          (show p ++ [st] ≠ [] by simp)
        rw [hal, getPath_str_cons] at h
        exact absurd h (by simp)
      · simp only [Option.map_some', hm, if_neg, List.append_eq] at h
        replace h : getPath (maskJson fields w) (p ++ [st]) = some v := by
          simpa using h
        exact ih w h

lemma getPath_mask_masked_some (fields : List String) (p : List Step) (j : Json) (st : Step)
    (hst : Step.name st ∈ fields)
    (hp : ∀ x ∈ p, Step.name x ∉ fields)
    (hsome : (getPath j (p ++ [st])).isSome) :
    getPath (maskJson fields j) (p ++ [st]) = some (Json.str "********") := by
  rw [getPath_append] at hsome ⊢
  rw [getPath_mask_unmasked fields p j hp]
  cases hgp : getPath j p with
  | none => rw [hgp] at hsome; simp at hsome
  | some w =>
    rw [hgp] at hsome
    simp only [Option.map_some', Option.bind_some]
    have hred : ∀ x : Json, getPath x [st] = getStep x st := by
      intro x
      simp [getPath]
    have hsome2 : (getStep w st).isSome := by
      simpa [hred] using hsome
    show getPath (maskJson fields w) [st] = some (Json.str "********")
    rw [hred, getStep_mask]
    cases hgs : getStep w st with
    | none => rw [hgs] at hsome2; simp at hsome2
    | some u => simp [hst]

end Eaglet
namespace Eaglet

/-- C6: for any non-empty `maskFields` and any record, after masking the
value at every surviving path whose final key name is in `maskFields`
equals `"********"` (and every such path that resolved before still
resolves, when not nested under another masked key); paths free of masked
keys change only by masking inside their subtree, and atomic values on
such paths are unchanged. -/
theorem masking_spec (fields : List String) (j : Json) (hne : fields ≠ []) :
    (∀ p st v, Step.name st ∈ fields →
        getPath (maskJson fields j) (p ++ [st]) = some v → v = Json.str "********")
  ∧ (∀ p st, Step.name st ∈ fields → (∀ x ∈ p, Step.name x ∉ fields) →
        (getPath j (p ++ [st])).isSome →
        getPath (maskJson fields j) (p ++ [st]) = some (Json.str "********"))
  ∧ (∀ p, (∀ x ∈ p, Step.name x ∉ fields) →
        getPath (maskJson fields j) p = (getPath j p).map (maskJson fields))
  ∧ (∀ p v, (∀ x ∈ p, Step.name x ∉ fields) → getPath j p = some v → v.isAtom = true →
        getPath (maskJson fields j) p = some v) := by
  refine ⟨fun p st v hst h => getPath_mask_masked fields p j st v hst h,
          fun p st hst hp hs => getPath_mask_masked_some fields p j st hst hp hs,
          fun p hp => getPath_mask_unmasked fields p j hp,
          fun p v hp hv hatom => ?_⟩
  rw [getPath_mask_unmasked fields p j hp, hv]
  simp only [Option.map_some']
  cases v <;> simp [Json.isAtom] at hatom ⊢ <;> rfl

/-- The record of end-to-end scenario 4 of the spec, as a JSON value. -/
def sampleRecord : Json :=
  Json.obj [("password", Json.str "p"),
            ("nested", Json.obj [("token", Json.str "t"), ("keep", Json.str "k")])]

theorem masking_spec_witness :
    ((["password", "token"] : List String) ≠ []
      ∧ Step.name (Step.fld "token") ∈ ["password", "token"]
      ∧ (∀ x ∈ [Step.fld "nested"], Step.name x ∉ ["password", "token"])
      ∧ (getPath sampleRecord ([Step.fld "nested"] ++ [Step.fld "token"])).isSome)
    ∧ getPath (maskJson ["password", "token"] sampleRecord)
        ([Step.fld "nested"] ++ [Step.fld "token"]) = some (Json.str "********") :=
  ⟨⟨by decide, by decide, by decide, by decide⟩,
   (masking_spec ["password", "token"] sampleRecord (by decide)).2.1
     [Step.fld "nested"] (Step.fld "token") (by decide) (by decide) (by decide)⟩

end Eaglet
namespace Eaglet

/-!
## Breadcrumb ring (collector.ts lines 250-270)
-/

/-- The ring insertion of `addBreadcrumb`, collector.ts lines 266-269:
`push`, then a single `shift` when the length exceeds `maxBreadcrumbs`. -/
def pushRing (maxBreadcrumbs : Nat) (ring : List Breadcrumb) (b : Breadcrumb) : List Breadcrumb :=
  let r := ring ++ [b]
  if maxBreadcrumbs < r.length then r.tail else r

/-- `addBreadcrumb`, collector.ts lines 250-270: run `beforeBreadcrumb`
(a nullish return drops the breadcrumb silently, a non-nullish return
replaces it), then insert into the ring. -/
def addBreadcrumbRing (maxBreadcrumbs : Nat) (hook : Breadcrumb → Option Breadcrumb)
    (ring : List Breadcrumb) (b : Breadcrumb) : List Breadcrumb :=
  match hook b with
  | none => ring
  | some b2 => pushRing maxBreadcrumbs ring b2

lemma foldl_pushRing (C : Nat) (L : List Breadcrumb) : ∀ r : List Breadcrumb, r.length ≤ C →
    L.foldl (pushRing C) r = (r ++ L).drop ((r ++ L).length - C) := by
  induction L with
  | nil =>
    intro r hr
    simp [Nat.sub_eq_zero_of_le hr]
  | cons b L ih =>
    intro r hr
    show L.foldl (pushRing C) (pushRing C r b) = _
    by_cases h1 : C < (r ++ [b]).length
    · have hrC : r.length = C := by simp at h1; omega
      have hne : r ++ [b] ≠ [] := by simp
      obtain ⟨a, t, hat⟩ := List.exists_cons_of_ne_nil hne
      have htl : t.length = C := by
        have := congrArg List.length hat
        simp at this
        omega
      have hpush : pushRing C r b = t := by
        simp [pushRing, hat, htl]
      rw [hpush, ih t (le_of_eq htl)]
      have hassoc : r ++ b :: L = a :: (t ++ L) := by
        rw [List.append_cons, hat, List.cons_append]
      rw [hassoc]
      have hlen : (a :: (t ++ L)).length - C = ((t ++ L).length - C) + 1 := by
        simp [htl]
        omega
      rw [hlen, List.drop_succ_cons]
    · have hpush : pushRing C r b = r ++ [b] := by
        simp only [pushRing, if_neg h1]
      have hlb : (r ++ [b]).length ≤ C := by omega
      rw [hpush, ih (r ++ [b]) hlb]
      have hacons : r ++ [b] ++ L = r ++ b :: L := by simp
      rw [hacons]

lemma foldl_addBreadcrumb (C : Nat) (hook : Breadcrumb → Option Breadcrumb)
    (bs : List Breadcrumb) : ∀ r : List Breadcrumb,
    bs.foldl (addBreadcrumbRing C hook) r = (bs.filterMap hook).foldl (pushRing C) r := by
  induction bs with
  | nil => intro r; rfl
  | cons b bs ih =>
    intro r
    show bs.foldl (addBreadcrumbRing C hook) (addBreadcrumbRing C hook r b) = _
    cases hb : hook b with
    | none => simp [addBreadcrumbRing, hb, List.filterMap_cons, ih]
    | some b2 => simp [addBreadcrumbRing, hb, List.filterMap_cons, ih]

/-- C8: starting from an empty ring with capacity `C = maxBreadcrumbs`,
after any sequence of breadcrumbs the ring holds exactly the last
`min N C` of the `N` breadcrumbs accepted by `beforeBreadcrumb`, in
insertion order. -/
theorem breadcrumb_ring_spec (C : Nat) (hook : Breadcrumb → Option Breadcrumb)
    (bs : List Breadcrumb) :
    bs.foldl (addBreadcrumbRing C hook) []
      = (bs.filterMap hook).drop ((bs.filterMap hook).length - C)
  ∧ (bs.foldl (addBreadcrumbRing C hook) []).length = min (bs.filterMap hook).length C := by
  have h1 := foldl_addBreadcrumb C hook bs []
  have h2 := foldl_pushRing C (bs.filterMap hook) [] (by simp)
  simp only [List.nil_append] at h2
  refine ⟨h1.trans h2, ?_⟩
  rw [h1.trans h2, List.length_drop]
  omega

end Eaglet
namespace Eaglet

/-!
## Rate limiting (collector.ts lines 610-627)
-/

/-- The per-minute rate-limit state of the collector: the tracked
`currentMinute` key and the `logCounts` map, modelled as a total function
(absent keys count 0, matching `(this.logCounts[key] || 0)`). -/
structure RateState where
  currentMinute : Nat
  logCounts : Nat → Nat

/-- Step 3 of `captureLog`, collector.ts lines 610-627: when
`maxLogsPerMinute > 0`, clear the counts map on a minute-key change,
increment the current key's count, and drop the record (emitting a console
warning) once the count exceeds the cap.  Returns the new state, whether
the record passed, and whether the warning fired. -/
def rateLimitStep (maxLogsPerMinute : Nat) (s : RateState) (minuteKey : Nat) :
    RateState × Bool × Bool :=
  if 0 < maxLogsPerMinute then
    let s0 := if s.currentMinute ≠ minuteKey
      then { currentMinute := minuteKey, logCounts := fun _ => 0 }
      else s
    let c := s0.logCounts minuteKey + 1
    let s1 : RateState :=
      { s0 with logCounts := fun k => if k = minuteKey then c else s0.logCounts k }
    if maxLogsPerMinute < c then (s1, false, true) else (s1, true, false)
  else (s, true, false)

/-- Iterate `rateLimitStep` over the minute keys of successive events,
collecting for each event whether it passed and whether the warning fired. -/
def rateLimitRun (M : Nat) : RateState → List Nat → RateState × List (Bool × Bool)
  | s, [] => (s, [])
  | s, k :: ks =>
    let r1 := rateLimitStep M s k
    let r2 := rateLimitRun M r1.1 ks
    (r2.1, r1.2 :: r2.2)

lemma rateLimitStep_same (M : Nat) (s : RateState) (k : Nat) (hM : 0 < M)
    (hcur : s.currentMinute = k) :
    (rateLimitStep M s k).1.currentMinute = k
    ∧ (rateLimitStep M s k).1.logCounts k = s.logCounts k + 1
    ∧ (rateLimitStep M s k).2
        = (decide (s.logCounts k + 1 ≤ M), decide (M < s.logCounts k + 1)) := by
  have hne : ¬ (s.currentMinute ≠ k) := by simp [hcur]
  by_cases h2 : M < s.logCounts k + 1
  · have h3 : ¬ (s.logCounts k + 1 ≤ M) := by omega
    simp [rateLimitStep, hM, hne, hcur, h2, h3]
  · have h3 : s.logCounts k + 1 ≤ M := by omega
    simp [rateLimitStep, hM, hne, hcur, h2, h3]

lemma rateLimitStep_fresh (M : Nat) (s : RateState) (k : Nat) (hM : 0 < M)
    (hcur : s.currentMinute ≠ k) :
    (rateLimitStep M s k).1.currentMinute = k
    ∧ (rateLimitStep M s k).1.logCounts k = 1
    ∧ (∀ k2, k2 ≠ k → (rateLimitStep M s k).1.logCounts k2 = 0)
    ∧ (rateLimitStep M s k).2 = (decide (1 ≤ M), decide (M < 1)) := by
  by_cases h2 : M < 1
  · have h3 : ¬ (1 ≤ M) := by omega
    simp [rateLimitStep, hM, hcur, h2, h3]
  · have h3 : 1 ≤ M := by omega
    simp [rateLimitStep, hM, hcur, h2, h3]

lemma rateLimitRun_const (M : Nat) (hM : 0 < M) (k : Nat) :
    ∀ (n : Nat) (s : RateState) (c : Nat), s.currentMinute = k → s.logCounts k = c →
    (rateLimitRun M s (List.replicate n k)).1.currentMinute = k
    ∧ (rateLimitRun M s (List.replicate n k)).1.logCounts k = c + n
    ∧ (rateLimitRun M s (List.replicate n k)).2
        = (List.range n).map (fun j => (decide (c + j + 1 ≤ M), decide (M < c + j + 1))) := by
  intro n
  induction n with
  | zero =>
    intro s c h1 h2
    simp [rateLimitRun, h1, h2]
  | succ m ih =>
    intro s c h1 h2
    obtain ⟨hs1, hs2, hs3⟩ := rateLimitStep_same M s k hM h1
    rw [List.replicate_succ]
    show (rateLimitRun M (rateLimitStep M s k).1 (List.replicate m k)).1.currentMinute = k
      ∧ (rateLimitRun M (rateLimitStep M s k).1 (List.replicate m k)).1.logCounts k = c + (m + 1)
      ∧ (rateLimitStep M s k).2 :: (rateLimitRun M (rateLimitStep M s k).1 (List.replicate m k)).2
        = (List.range (m + 1)).map (fun j => (decide (c + j + 1 ≤ M), decide (M < c + j + 1)))
    obtain ⟨ih1, ih2, ih3⟩ := ih (rateLimitStep M s k).1 (c + 1) hs1 (by rw [hs2, h2])
    refine ⟨ih1, by rw [ih2]; omega, ?_⟩
    rw [ih3, hs3, h2, List.range_succ_eq_map, List.map_cons, List.map_map]
    have harith : ∀ j : Nat, c + 1 + j + 1 = c + (j + 1) + 1 := fun j => by omega
    simp [Function.comp, harith]

lemma rateLimitRun_fresh (M : Nat) (hM : 0 < M) (k n : Nat) (s : RateState)
    (hcur : s.currentMinute ≠ k) :
    (rateLimitRun M s (List.replicate n k)).2
      = (List.range n).map (fun j => (decide (j + 1 ≤ M), decide (M < j + 1))) := by
  cases n with
  | zero => simp [rateLimitRun]
  | succ m =>
    obtain ⟨hs1, hs2, _, hs4⟩ := rateLimitStep_fresh M s k hM hcur
    rw [List.replicate_succ]
    show (rateLimitStep M s k).2 :: (rateLimitRun M (rateLimitStep M s k).1 (List.replicate m k)).2 = _
    obtain ⟨_, _, ih3⟩ := rateLimitRun_const M hM k m (rateLimitStep M s k).1 1 hs1 hs2
    rw [ih3, hs4, List.range_succ_eq_map, List.map_cons, List.map_map]
    have harith : ∀ j : Nat, 1 + j + 1 = (j + 1) + 1 := fun j => by omega
    simp [Function.comp, harith]

lemma countP_accepted (M n : Nat) :
    ((List.range n).map
        (fun j => ((decide (j + 1 ≤ M) : Bool), (decide (M < j + 1) : Bool)))).countP
      (fun p => p.1) = min n M := by
  induction n with
  | zero => simp
  | succ m ih =>
    rw [List.range_succ, List.map_append, List.countP_append, ih]
    by_cases h : m + 1 ≤ M
    · have : ¬ (M < m + 1) := by omega
      simp [List.countP_cons, h, this]
      omega
    · have : M < m + 1 := by omega
      simp [List.countP_cons, h, this]
      omega

end Eaglet
namespace Eaglet

lemma flags_getElem_M (M n : Nat) (h : M < n) :
    ((List.range n).map
        (fun j => ((decide (j + 1 ≤ M) : Bool), (decide (M < j + 1) : Bool))))[M]? = some (false, true) := by
  rw [List.getElem?_map, List.getElem?_range h]
  have h1 : ¬ (M + 1 ≤ M) := by omega
  have h2 : M < M + 1 := by omega
  simp [h1, h2]

/-- C7: with `maxLogsPerMinute = M > 0`, for a run of events in a fresh
minute exactly `min n M` of n events pass the rate-limit step (so at most
M); when n > M the (M+1)-th event of the minute is dropped with the
console warning; and on a minute-key change the count map is reset to 1
for the new key and 0 for every other key. -/
theorem rate_limit_spec (M : Nat) (s : RateState) (k n : Nat)
    (hM : 0 < M) (hfresh : s.currentMinute ≠ k) :
    ((rateLimitRun M s (List.replicate n k)).2.countP (fun p => p.1) = min n M)
  ∧ (M < n → ((rateLimitRun M s (List.replicate n k)).2)[M]? = some (false, true))
  ∧ ((rateLimitStep M s k).1.logCounts k = 1
      ∧ ∀ k2, k2 ≠ k → (rateLimitStep M s k).1.logCounts k2 = 0) := by
  obtain ⟨_, h2, h3, _⟩ := rateLimitStep_fresh M s k hM hfresh
  refine ⟨?_, ?_, h2, h3⟩
  · rw [rateLimitRun_fresh M hM k n s hfresh]
    exact countP_accepted M n
  · intro hMn
    rw [rateLimitRun_fresh M hM k n s hfresh]
    exact flags_getElem_M M n hMn

/-- A rate-limit state at minute key 0 with all counts zero, as
`initRateLimiter` produces (collector.ts lines 955-957). -/
def rateState0 : RateState := { currentMinute := 0, logCounts := fun _ => 0 }

theorem rate_limit_spec_witness :
    ((0 : Nat) < 3 ∧ rateState0.currentMinute ≠ 1) ∧
    (((rateLimitRun 3 rateState0 (List.replicate 5 1)).2.countP (fun p => p.1) = min 5 3)
     ∧ ((3 : Nat) < 5 → ((rateLimitRun 3 rateState0 (List.replicate 5 1)).2)[3]? = some (false, true))
     ∧ ((rateLimitStep 3 rateState0 1).1.logCounts 1 = 1
         ∧ ∀ k2, k2 ≠ 1 → (rateLimitStep 3 rateState0 1).1.logCounts k2 = 0)) :=
  ⟨⟨by decide, by decide⟩, rate_limit_spec 3 rateState0 1 5 (by decide) (by decide)⟩

end Eaglet
namespace Eaglet

/-!
## Configuration and `updateConfig` (collector.ts lines 92-189)
-/

/-- `Required<LogCollectorConfig>` after the constructor merge, restricted
to the parameters read by the enrichment and delivery paths modelled
here.  `samplingRates` is a per-level partial map, read with default 1
(`this.config.samplingRates[level] ?? 1.0`, line 604). -/
structure Config where
  dsn : Option String
  apiKey : Option String
  batchSize : Nat
  batchInterval : Nat
  maxRetries : Nat
  retryDelayMs : Nat
  logLevel : LogLevel
  maskFields : List String
  samplingRates : LogLevel → Option ℚ
  maxLogsPerMinute : Nat
  enableLocalStorage : Bool
  enableIndexedDB : Bool

/-- `Partial<LogCollectorConfig>`: each top-level key is either absent or
present; a present `samplingRates` is a whole object. -/
structure PartialConfig where
  dsn : Option (Option String) := none
  apiKey : Option (Option String) := none
  batchSize : Option Nat := none
  batchInterval : Option Nat := none
  maxRetries : Option Nat := none
  retryDelayMs : Option Nat := none
  logLevel : Option LogLevel := none
  maskFields : Option (List String) := none
  samplingRates : Option (LogLevel → Option ℚ) := none
  maxLogsPerMinute : Option Nat := none
  enableLocalStorage : Option Bool := none
  enableIndexedDB : Option Bool := none

/-- `updateConfig`, collector.ts line 167:
`this.config = { ...this.config, ...newConfig }` — a shallow top-level
merge in which every key present in `newConfig` replaces the old value
wholesale. -/
def updateConfig (c : Config) (p : PartialConfig) : Config :=
  { dsn := p.dsn.getD c.dsn,
    apiKey := p.apiKey.getD c.apiKey,
    batchSize := p.batchSize.getD c.batchSize,
    batchInterval := p.batchInterval.getD c.batchInterval,
    maxRetries := p.maxRetries.getD c.maxRetries,
    retryDelayMs := p.retryDelayMs.getD c.retryDelayMs,
    logLevel := p.logLevel.getD c.logLevel,
    maskFields := p.maskFields.getD c.maskFields,
    samplingRates := p.samplingRates.getD c.samplingRates,
    maxLogsPerMinute := p.maxLogsPerMinute.getD c.maxLogsPerMinute,
    enableLocalStorage := p.enableLocalStorage.getD c.enableLocalStorage,
    enableIndexedDB := p.enableIndexedDB.getD c.enableIndexedDB }

/-- The sampling rate step 2 of `captureLog` reads, collector.ts line 604:
`this.config.samplingRates[level] ?? 1.0`. -/
def effectiveSamplingRate (c : Config) (l : LogLevel) : ℚ :=
  (c.samplingRates l).getD 1

/-- C9: `updateConfig` with a `samplingRates` key replaces the whole
object: afterwards every level's effective rate is read from the new
object alone (defaulting to 1 for levels absent from it), and the
per-level rates configured before the update are discarded. -/
theorem updateConfig_samplingRates_replaced (c : Config) (p : PartialConfig)
    (S : LogLevel → Option ℚ) (hp : p.samplingRates = some S) :
    (updateConfig c p).samplingRates = S
  ∧ (∀ l, effectiveSamplingRate (updateConfig c p) l = (S l).getD 1)
  ∧ (∀ l, S l = none → effectiveSamplingRate (updateConfig c p) l = 1) := by
  refine ⟨by simp [updateConfig, hp], fun l => by simp [updateConfig, effectiveSamplingRate, hp],
    fun l hl => by simp [updateConfig, effectiveSamplingRate, hp, hl]⟩

/-- A configuration holding the constructor defaults of collector.ts
lines 94-126 for the parameters modelled here (`dsn`/`apiKey` unset). -/
def defaultConfig : Config :=
  { dsn := none,
    apiKey := none,
    batchSize := 10,
    batchInterval := 5000,
    maxRetries := 3,
    retryDelayMs := 1000,
    logLevel := LogLevel.info,
    maskFields := [],
    samplingRates := fun _ => none,
    maxLogsPerMinute := 0,
    enableLocalStorage := false,
    enableIndexedDB := false }

/-- A pre-update configuration with every level explicitly sampled at 1/2. -/
def halfSampledConfig : Config :=
  { defaultConfig with samplingRates := fun _ => some (1 / 2) }

/-- The partial update of the example in `App.jsx`: a new `samplingRates`
object giving `warn` rate 1 and leaving the other levels absent. -/
def warnOnlyUpdate : PartialConfig :=
  { samplingRates := some (fun l => if l = LogLevel.warn then some 1 else none) }

theorem updateConfig_samplingRates_replaced_witness :
    (warnOnlyUpdate.samplingRates
        = some (fun l => if l = LogLevel.warn then some 1 else none))
    ∧ ((updateConfig halfSampledConfig warnOnlyUpdate).samplingRates
          = (fun l => if l = LogLevel.warn then some 1 else none)
      ∧ (∀ l, effectiveSamplingRate (updateConfig halfSampledConfig warnOnlyUpdate) l
          = ((if l = LogLevel.warn then some 1 else none : Option ℚ)).getD 1)
      ∧ (∀ l, (if l = LogLevel.warn then some 1 else none : Option ℚ) = none →
          effectiveSamplingRate (updateConfig halfSampledConfig warnOnlyUpdate) l = 1)) :=
  ⟨rfl, updateConfig_samplingRates_replaced halfSampledConfig warnOnlyUpdate
    (fun l => if l = LogLevel.warn then some 1 else none) rfl⟩

end Eaglet
namespace Eaglet

/-!
## IndexedDB store (store.ts)

Per the IndexedDB specification, the records of an object store are
sorted by key (here `keyPath: 'id'`), and `store.getAll()` returns them
in ascending key order; insertion order is not retained.  The store is
therefore modelled as an association list kept in ascending key order by
`idbAdd`.
-/

/-- `store.add(log)` in `IndexedDBStore.addLog`, store.ts line 111:
insert the record at its key position; an `add` with an existing key makes
the request error, leaving the store unchanged. -/
def idbAdd (st : List (String × LogEntry)) (k : String) (e : LogEntry) :
    List (String × LogEntry) :=
  match st with
  | [] => [(k, e)]
  | (k2, e2) :: rest =>
    if k < k2 then (k, e) :: (k2, e2) :: rest
    else if k = k2 then (k2, e2) :: rest
    else (k2, e2) :: idbAdd rest k e

/-- Adding a sequence of records in the order the collector captured them. -/
def buildStore (l : List (String × LogEntry)) : List (String × LogEntry) :=
  l.foldl (fun st p => idbAdd st p.1 p.2) []

/-- `IndexedDBStore.getAllLogs`, store.ts lines 136-165: `store.getAll()`
returns the records in ascending key order. -/
def getAllLogs (st : List (String × LogEntry)) : List LogEntry :=
  st.map Prod.snd

/-- Batch selection of `flushQueue` when the durable store is present,
collector.ts lines 811-816: fetch all stored logs and send the first
`batchSize` of them. -/
def flushBatch (batchSize : Nat) (st : List (String × LogEntry)) : List LogEntry :=
  (getAllLogs st).take batchSize

/-- The record captured first in the C4 counterexample; its id sorts last. -/
def entryB : LogEntry := { id := some "b", level := LogLevel.info, message := "captured first" }

/-- The record captured second in the C4 counterexample; its id sorts first. -/
def entryA : LogEntry := { id := some "a", level := LogLevel.info, message := "captured second" }

lemma str_a_lt_b : ("a" : String) < "b" := by
  rw [String.lt_iff_toList_lt]
  decide

lemma str_not_b_lt_a : ¬ (("b" : String) < "a") := by
  rw [String.lt_iff_toList_lt]
  decide

lemma charlist_a_lt_b : (['a'] : List Char) < ['b'] := by decide

/-- C4 counterexample: two records captured in the order `entryB` (id "b")
then `entryA` (id "a").  A flush with batchSize 1 sends `[entryA]`, not
the oldest stored record (`[entryB]`), and with batchSize 2 the batch is
in id order `[entryA, entryB]`, not capture order `[entryB, entryA]`. -/
theorem flush_order_counterexample :
    flushBatch 1 (buildStore [("b", entryB), ("a", entryA)]) = [entryA]
  ∧ [entryA] ≠ [entryB]
  ∧ flushBatch 2 (buildStore [("b", entryB), ("a", entryA)]) = [entryA, entryB]
  ∧ [entryA, entryB] ≠ [entryB, entryA] := by
  refine ⟨?_, by decide, ?_, by decide⟩ <;>
    simp [flushBatch, buildStore, getAllLogs, idbAdd, str_a_lt_b, charlist_a_lt_b]

lemma mem_idbAdd_keys (st : List (String × LogEntry)) (k : String) (e : LogEntry) (x : String)
    (hx : x ∈ (idbAdd st k e).map Prod.fst) : x = k ∨ x ∈ st.map Prod.fst := by
  induction st with
  | nil => simpa [idbAdd] using hx
  | cons hd tl ih =>
    obtain ⟨k2, e2⟩ := hd
    by_cases h1 : k < k2
    · simp only [idbAdd, if_pos h1, List.map_cons, List.mem_cons] at hx
      rcases hx with hx | hx
      · exact Or.inl hx
      · refine Or.inr ?_
        simpa using hx
    · by_cases h2 : k = k2
      · simp only [idbAdd, if_neg h1, if_pos h2] at hx
        exact Or.inr hx
      · simp only [idbAdd, if_neg h1, if_neg h2, List.map_cons, List.mem_cons] at hx
        rcases hx with hx | hx
        · refine Or.inr ?_
          simp [hx]
        · rcases ih hx with h | h
          · exact Or.inl h
          · refine Or.inr ?_
            simpa using Or.inr h

lemma idbAdd_keys_sorted (st : List (String × LogEntry)) (k : String) (e : LogEntry)
    (h : (st.map Prod.fst).Pairwise (· < ·)) :
    ((idbAdd st k e).map Prod.fst).Pairwise (· < ·) := by
  induction st with
  | nil => simp [idbAdd]
  | cons hd tl ih =>
    obtain ⟨k2, e2⟩ := hd
    simp only [List.map_cons, List.pairwise_cons] at h
    obtain ⟨hall, htl⟩ := h
    by_cases h1 : k < k2
    · simp only [idbAdd, if_pos h1, List.map_cons, List.pairwise_cons]
      exact ⟨fun x hx => by
          rcases List.mem_cons.mp hx with hx | hx
          · rw [hx]; exact h1
          · exact lt_trans h1 (hall x hx),
        hall, htl⟩
    · by_cases h2 : k = k2
      · simp only [idbAdd, if_neg h1, if_pos h2, List.map_cons, List.pairwise_cons]
        exact ⟨hall, htl⟩
      · have h3 : k2 < k := lt_of_le_of_ne (le_of_not_lt h1) (Ne.symm h2)
        simp only [idbAdd, if_neg h1, if_neg h2, List.map_cons, List.pairwise_cons]
        refine ⟨fun x hx => ?_, ih htl⟩
        rcases mem_idbAdd_keys tl k e x hx with hx | hx
        · rw [hx]; exact h3
        · exact hall x hx

lemma buildStore_sorted (l : List (String × LogEntry)) :
    ((buildStore l).map Prod.fst).Pairwise (· < ·) := by
  suffices h : ∀ st : List (String × LogEntry), (st.map Prod.fst).Pairwise (· < ·) →
      (((l.foldl (fun st2 p => idbAdd st2 p.1 p.2) st)).map Prod.fst).Pairwise (· < ·) by
    exact h [] (by simp)
  induction l with
  | nil => intro st hst; exact hst
  | cons p l ih =>
    intro st hst
    exact ih (idbAdd st p.1 p.2) (idbAdd_keys_sorted st p.1 p.2 hst)

lemma idbAdd_append (st : List (String × LogEntry)) (k : String) (e : LogEntry)
    (h : ∀ x ∈ st.map Prod.fst, x < k) :
    idbAdd st k e = st ++ [(k, e)] := by
  induction st with
  | nil => rfl
  | cons hd tl ih =>
    obtain ⟨k2, e2⟩ := hd
    have hk2 : k2 < k := h k2 (by simp)
    have h1 : ¬ k < k2 := not_lt_of_gt hk2
    have h2 : ¬ k = k2 := by
      intro he
      rw [he] at hk2
      exact lt_irrefl k2 hk2
    simp only [idbAdd, if_neg h1, if_neg h2, List.cons_append, List.cons.injEq, true_and]
    exact ih (fun x hx => h x (by simp [hx]))

lemma foldl_idbAdd_ascending (l : List (String × LogEntry)) : ∀ st : List (String × LogEntry),
    ((l.map Prod.fst).Pairwise (· < ·)) →
    (∀ x ∈ st.map Prod.fst, ∀ y ∈ l.map Prod.fst, x < y) →
    l.foldl (fun st2 p => idbAdd st2 p.1 p.2) st = st ++ l := by
  induction l with
  | nil => intro st _ _; simp
  | cons p l ih =>
    intro st hp hcross
    simp only [List.map_cons, List.pairwise_cons] at hp
    obtain ⟨hhead, htail⟩ := hp
    simp only [List.foldl_cons]
    have hadd : idbAdd st p.1 p.2 = st ++ [p] := by
      rw [idbAdd_append st p.1 p.2 (fun x hx => hcross x hx p.1 (by simp))]
    rw [hadd, ih (st ++ [p]) htail ?_]
    · simp
    · intro x hx y hy
      rw [List.map_append] at hx
      rcases List.mem_append.mp hx with hx | hx
      · exact hcross x hx y (by simp [hy])
      · have hxp : x = p.1 := by simpa using hx
        rw [hxp]
        exact hhead y hy

lemma buildStore_ascending (l : List (String × LogEntry))
    (h : (l.map Prod.fst).Pairwise (· < ·)) :
    buildStore l = l := by
  have h2 := foldl_idbAdd_ascending l [] h (by simp)
  simpa [buildStore] using h2

/-- C4 (amended): the durable store is ordered by record id, not by
insertion: every store built by `store.add` has strictly ascending keys,
and a flush sends the first `batchSize` records in ascending id order —
which coincides with capture order exactly when the ids happen to be
assigned in ascending order. -/
theorem flush_order_amended (l : List (String × LogEntry)) (batchSize : Nat) :
    ((buildStore l).map Prod.fst).Pairwise (· < ·)
  ∧ ((l.map Prod.fst).Pairwise (· < ·) →
      flushBatch batchSize (buildStore l) = (l.map Prod.snd).take batchSize) := by
  refine ⟨buildStore_sorted l, fun h => ?_⟩
  rw [flushBatch, buildStore_ascending l h, getAllLogs]

theorem flush_order_amended_witness :
    (([("a", entryA), ("b", entryB)].map Prod.fst).Pairwise (· < ·))
    ∧ flushBatch 1 (buildStore [("a", entryA), ("b", entryB)]) = ([entryA, entryB]).take 1 :=
  ⟨by simp [str_a_lt_b, charlist_a_lt_b],
   (flush_order_amended [("a", entryA), ("b", entryB)] 1).2
     (by simp [str_a_lt_b, charlist_a_lt_b])⟩

end Eaglet
namespace Eaglet

/-!
## `IndexedDBStore.deleteLogs` (store.ts lines 207-253)
-/

/-- The connection state and records of an `IndexedDBStore`. -/
structure IDBState where
  dbOpen : Bool
  records : List (String × LogEntry)
deriving DecidableEq, Repr

/-- The observable IndexedDB operations a store method performs. -/
inductive DBAction where
  | openDb
  | transaction (mode : String)
  | deleteRequest (id : String)
deriving DecidableEq, Repr

/-- `IndexedDBStore.deleteLogs`, store.ts lines 207-253: a missing
(`!ids`) or empty id list resolves immediately — before the database is
opened and before any transaction is created; otherwise open the
connection if needed, create one readwrite transaction and issue one
delete request per id (an individual failed delete does not abort the
sibling deletes). -/
def deleteLogs (st : IDBState) (ids : Option (List String)) : IDBState × List DBAction :=
  match ids with
  | none => (st, [])
  | some [] => (st, [])
  | some l =>
    ({ dbOpen := true,
       records := st.records.filter (fun p => ! l.contains p.1) },
     (if st.dbOpen then [] else [DBAction.openDb])
       ++ [DBAction.transaction "readwrite"] ++ l.map DBAction.deleteRequest)

/-- C10: `deleteLogs` with a missing or empty id list resolves
immediately: the store contents are unchanged, the database is not opened
and no transaction is created. -/
theorem deleteLogs_empty (st : IDBState) (ids : Option (List String))
    (h : ids = none ∨ ids = some []) :
    deleteLogs st ids = (st, []) := by
  rcases h with h | h <;> rw [h] <;> rfl

/-- A closed store used to witness C10 concretely. -/
def idb0 : IDBState := { dbOpen := false, records := [("a", entryA)] }

theorem deleteLogs_empty_witness :
    ((some ([] : List String) = none ∨ some ([] : List String) = some []))
    ∧ deleteLogs idb0 (some []) = (idb0, []) :=
  ⟨Or.inr rfl, deleteLogs_empty idb0 (some []) (Or.inr rfl)⟩

end Eaglet
namespace Eaglet

/-!
## Delivery engine (collector.ts lines 800-952)

`flushQueue(retries, isUnload)` runs to completion over a single transport
attempt; the external outcomes — whether `navigator.sendBeacon` queued the
payload (only consulted on unload), and how the `fetch` POST settled — are
parameters.  Callback invocations, scheduled timers and the send itself
are returned as events in the order the source produces them.
-/

/-- How the `fetch` POST of `flushQueue` settles (collector.ts lines
850-870): fulfilled with a 2xx response, fulfilled with a non-2xx response
(carrying the status and the response body text), or rejected. -/
inductive FetchResult where
  | ok
  | httpError (status : Nat) (body : String)
  | thrown (msg : String)
deriving DecidableEq, Repr

/-- The externally observable effects of the delivery engine. -/
inductive Event where
  | post (batch : List LogEntry)
  | onSendSuccess (batch : List LogEntry)
  | onSendFailure (err : String) (batch : List LogEntry)
  | scheduleRetry (delayMs : Nat) (nextRetries : Nat)
  | scheduleCircuitReset (delayMs : Nat)
  | flushRequested
  | processQueue
deriving DecidableEq, Repr

/-- The delivery-relevant mutable state of the collector
(collector.ts lines 63-90). -/
structure DeliveryState where
  logQueue : List LogEntry
  isSending : Bool
  circuitOpen : Bool
  consecutiveFailures : Nat
  circuitResetPending : Bool
  hasIndexedDB : Bool
  idb : List (String × LogEntry)
  hasLocalStorage : Bool
  localSlot : Option (List LogEntry)
deriving DecidableEq, Repr

/-- `CIRCUIT_BREAKER_THRESHOLD`, collector.ts line 74. -/
def CIRCUIT_BREAKER_THRESHOLD : Nat := 5

/-- `CIRCUIT_BREAKER_RESET_DELAY`, collector.ts line 75 (60 s). -/
def CIRCUIT_BREAKER_RESET_DELAY : Nat := 60000

/-- `handleSendSuccess`, collector.ts lines 891-907: clear the failure
counter, close the circuit (cancelling any pending reset timer), invoke
`onSendSuccess`, then delete the sent ids from IndexedDB (when the id
list is non-empty) or clear the localStorage slot. -/
def handleSendSuccess (s : DeliveryState) (logsSent : List LogEntry)
    (idsToDelete : List String) : DeliveryState × List Event :=
  let s1 := { s with consecutiveFailures := 0, circuitOpen := false,
                     circuitResetPending := false }
  let s2 :=
    if s1.hasIndexedDB then
      if idsToDelete.isEmpty then s1
      else { s1 with idb := s1.idb.filter (fun p => ! idsToDelete.contains p.1) }
    else if s1.hasLocalStorage then { s1 with localSlot := none }
    else s1
  (s2, [Event.onSendSuccess logsSent])

/-- `handleSendFailure`, collector.ts lines 909-929: increment the
consecutive-failure counter and invoke `onSendFailure`; at the threshold
open the circuit and arm the 60 s reset timer (`openCircuit`, lines
932-943); below it schedule a retry after
`retryDelayMs * 2 ^ retries + jitter` ms while `retries < maxRetries`,
else give up (the batch stays in persistence). -/
def handleSendFailure (cfg : Config) (s : DeliveryState) (logsFailed : List LogEntry)
    (retries : Nat) (err : String) (jitter : Nat) : DeliveryState × List Event :=
  let s1 := { s with consecutiveFailures := s.consecutiveFailures + 1 }
  if CIRCUIT_BREAKER_THRESHOLD ≤ s1.consecutiveFailures then
    ({ s1 with circuitOpen := true, circuitResetPending := true },
     [Event.onSendFailure err logsFailed,
      Event.scheduleCircuitReset CIRCUIT_BREAKER_RESET_DELAY])
  else if retries < cfg.maxRetries then
    (s1, [Event.onSendFailure err logsFailed,
          Event.scheduleRetry (cfg.retryDelayMs * 2 ^ retries + jitter) (retries + 1)])
  else
    (s1, [Event.onSendFailure err logsFailed])

/-- `flushQueue(retries, isUnload)`, collector.ts lines 801-889.  The
guard returns at once when a send is in flight, the circuit is open, or
no `dsn` is configured.  With IndexedDB the batch is the first
`batchSize` of `getAllLogs` (the store is untouched until success);
otherwise the batch is spliced off the in-memory queue.  `beaconQueued`
models `navigator.sendBeacon` accepting the payload (< 60 KiB), consulted
only when `isUnload`.  On a fulfilled non-2xx response
`handleSendFailure` runs; when the fetch rejects, the inner catch of
lines 868-870 only logs, so neither handler runs.  The `finally` block
triggers `processQueue` when more work may remain. -/
def flushQueue (cfg : Config) (s : DeliveryState) (retries : Nat) (isUnload : Bool)
    (beaconQueued : Bool) (fetched : FetchResult) (jitter : Nat) :
    DeliveryState × List Event :=
  if s.isSending = true ∨ s.circuitOpen = true ∨ cfg.dsn = none then (s, [])
  else
    let logsToSend :=
      if s.hasIndexedDB then (getAllLogs s.idb).take cfg.batchSize
      else s.logQueue.take cfg.batchSize
    let logsIdsToDelete :=
      if s.hasIndexedDB then logsToSend.filterMap (fun e => e.id) else []
    let s1 :=
      if s.hasIndexedDB then s
      else { s with logQueue := s.logQueue.drop cfg.batchSize }
    if logsToSend.isEmpty then (s1, [])
    else
      let r :=
        if isUnload ∧ beaconQueued = true then
          handleSendSuccess s1 logsToSend logsIdsToDelete
        else
          match fetched with
          | FetchResult.ok => handleSendSuccess s1 logsToSend logsIdsToDelete
          | FetchResult.httpError status body =>
            handleSendFailure cfg s1 logsToSend retries
              ("HTTP " ++ toString status ++ ": " ++ body) jitter
          | FetchResult.thrown _ => (s1, [])
      let trigger :=
        if r.1.hasIndexedDB then [Event.processQueue]
        else if r.1.logQueue.isEmpty then [] else [Event.processQueue]
      (r.1, Event.post logsToSend :: r.2 ++ trigger)

/-- The circuit-reset timer callback armed by `openCircuit`, collector.ts
lines 937-942: after 60 s the circuit is closed, the failure counter
cleared, and a flush attempted. -/
def circuitResetFire (s : DeliveryState) : DeliveryState × List Event :=
  ({ s with circuitOpen := false, consecutiveFailures := 0, circuitResetPending := false },
   [Event.flushRequested])

end Eaglet
namespace Eaglet

lemma flushQueue_circuitOpen (cfg : Config) (s : DeliveryState) (retries : Nat)
    (isUnload beaconQueued : Bool) (fetched : FetchResult) (jitter : Nat)
    (hopen : s.circuitOpen = true) :
    flushQueue cfg s retries isUnload beaconQueued fetched jitter = (s, []) := by
  simp [flushQueue, hopen]

lemma take_batch_not_empty (s : DeliveryState) (cfg : Config)
    (hne : s.idb ≠ []) (hbs : 0 < cfg.batchSize) :
    ((getAllLogs s.idb).take cfg.batchSize).isEmpty = false := by
  obtain ⟨m, hm⟩ := Nat.exists_eq_succ_of_ne_zero (Nat.pos_iff_ne_zero.mp hbs)
  cases hidb2 : s.idb with
  | nil => exact absurd hidb2 hne
  | cons p t => simp [getAllLogs, hm]

lemma flushQueue_httpError_effect (cfg : Config) (s : DeliveryState)
    (retries jitter status : Nat) (body : String)
    (hsend : s.isSending = false) (hopen : s.circuitOpen = false)
    (hdsn : cfg.dsn ≠ none) (hidb : s.hasIndexedDB = true)
    (hne : s.idb ≠ []) (hbs : 0 < cfg.batchSize) :
    ((flushQueue cfg s retries false false (FetchResult.httpError status body) jitter).1.consecutiveFailures
        = s.consecutiveFailures + 1)
  ∧ ((flushQueue cfg s retries false false (FetchResult.httpError status body) jitter).1.circuitOpen
        = decide (CIRCUIT_BREAKER_THRESHOLD ≤ s.consecutiveFailures + 1))
  ∧ ((flushQueue cfg s retries false false (FetchResult.httpError status body) jitter).1.isSending
        = false)
  ∧ ((flushQueue cfg s retries false false (FetchResult.httpError status body) jitter).1.hasIndexedDB
        = true)
  ∧ ((flushQueue cfg s retries false false (FetchResult.httpError status body) jitter).1.idb
        = s.idb)
  ∧ (CIRCUIT_BREAKER_THRESHOLD ≤ s.consecutiveFailures + 1 →
      Event.scheduleCircuitReset CIRCUIT_BREAKER_RESET_DELAY
        ∈ (flushQueue cfg s retries false false (FetchResult.httpError status body) jitter).2) := by
  have hguard : ¬ (s.isSending = true ∨ s.circuitOpen = true ∨ cfg.dsn = none) := by
    simp [hsend, hopen, hdsn]
  have hbatch := take_batch_not_empty s cfg hne hbs
  by_cases hth : CIRCUIT_BREAKER_THRESHOLD ≤ s.consecutiveFailures + 1
  · simp [flushQueue, hguard, hidb, hbatch, handleSendFailure, hth, hsend, hopen, hdsn]
  · by_cases hr : retries < cfg.maxRetries <;>
      simp [flushQueue, hguard, hidb, hbatch, handleSendFailure, hth, hr, hsend, hopen, hdsn]

lemma flushQueue_ok_effect (cfg : Config) (s : DeliveryState)
    (retries jitter : Nat)
    (hsend : s.isSending = false) (hopen : s.circuitOpen = false)
    (hdsn : cfg.dsn ≠ none) (hidb : s.hasIndexedDB = true)
    (hne : s.idb ≠ []) (hbs : 0 < cfg.batchSize) :
    ((flushQueue cfg s retries false false FetchResult.ok jitter).1.consecutiveFailures = 0)
  ∧ ((flushQueue cfg s retries false false FetchResult.ok jitter).1.circuitOpen = false) := by
  have hguard : ¬ (s.isSending = true ∨ s.circuitOpen = true ∨ cfg.dsn = none) := by
    simp [hsend, hopen, hdsn]
  have hbatch := take_batch_not_empty s cfg hne hbs
  by_cases hdel : (((getAllLogs s.idb).take cfg.batchSize).filterMap (fun e => e.id)).isEmpty <;>
    simp [flushQueue, hguard, hidb, hbatch, handleSendSuccess, hdel, hsend, hopen, hdsn]

/-- C1 (code evidence): when the `fetch` POST rejects, the inner catch of
`flushQueue` (collector.ts lines 868-870) only logs the error, so —
contrary to the HTTP-non-2xx path — the consecutive-failure counter and
the circuit are untouched, `onSendFailure` is never invoked, and no retry
is scheduled; the outer catch of lines 874-876 that would count the
failure is unreachable for fetch rejections. -/
theorem fetch_thrown_swallowed (cfg : Config) (s : DeliveryState)
    (retries jitter : Nat) (msg : String)
    (hsend : s.isSending = false) (hopen : s.circuitOpen = false)
    (hdsn : cfg.dsn ≠ none) :
    ((flushQueue cfg s retries false false (FetchResult.thrown msg) jitter).1.consecutiveFailures
        = s.consecutiveFailures)
  ∧ ((flushQueue cfg s retries false false (FetchResult.thrown msg) jitter).1.circuitOpen
        = s.circuitOpen)
  ∧ (∀ err batch, Event.onSendFailure err batch
        ∉ (flushQueue cfg s retries false false (FetchResult.thrown msg) jitter).2)
  ∧ (∀ d r2, Event.scheduleRetry d r2
        ∉ (flushQueue cfg s retries false false (FetchResult.thrown msg) jitter).2) := by
  have hguard : ¬ (s.isSending = true ∨ s.circuitOpen = true ∨ cfg.dsn = none) := by
    simp [hsend, hopen, hdsn]
  by_cases hidb : s.hasIndexedDB = true
  · by_cases hbatch : ((getAllLogs s.idb).take cfg.batchSize).isEmpty <;>
      simp [flushQueue, hguard, hidb, hbatch, hsend, hopen, hdsn]
  · have hidb2 : s.hasIndexedDB = false := by
      cases h2 : s.hasIndexedDB
      · rfl
      · exact absurd h2 hidb
    by_cases hbatch : (s.logQueue.take cfg.batchSize).isEmpty <;>
      by_cases hq : (s.logQueue.drop cfg.batchSize).isEmpty <;>
        simp [flushQueue, hguard, hidb2, hbatch, hq, hsend, hopen, hdsn]

end Eaglet
namespace Eaglet

/-- A live configuration: the defaults with a `dsn` and IndexedDB on. -/
def cfgLive : Config :=
  { defaultConfig with dsn := some "https://ingest.example/logs", enableIndexedDB := true }

/-- A healthy delivery state with one persisted record. -/
def baseState : DeliveryState :=
  { logQueue := [], isSending := false, circuitOpen := false, consecutiveFailures := 0,
    circuitResetPending := false, hasIndexedDB := true, idb := [("a", entryA)],
    hasLocalStorage := false, localSlot := none }

theorem fetch_thrown_swallowed_witness :
    (baseState.isSending = false ∧ baseState.circuitOpen = false ∧ cfgLive.dsn ≠ none)
    ∧ (((flushQueue cfgLive baseState 0 false false (FetchResult.thrown "network down") 0).1.consecutiveFailures
          = baseState.consecutiveFailures)
      ∧ ((flushQueue cfgLive baseState 0 false false (FetchResult.thrown "network down") 0).1.circuitOpen
          = baseState.circuitOpen)
      ∧ (∀ err batch, Event.onSendFailure err batch
          ∉ (flushQueue cfgLive baseState 0 false false (FetchResult.thrown "network down") 0).2)
      ∧ (∀ d r2, Event.scheduleRetry d r2
          ∉ (flushQueue cfgLive baseState 0 false false (FetchResult.thrown "network down") 0).2)) :=
  ⟨⟨rfl, rfl, by decide⟩,
   fetch_thrown_swallowed cfgLive baseState 0 0 "network down" rfl rfl (by decide)⟩

/-- The state while the circuit is open after five consecutive failures. -/
def openedState : DeliveryState :=
  { baseState with circuitOpen := true, consecutiveFailures := 5, circuitResetPending := true }

/-- C3 counterexample: in the state reached when the 60 s reset timer
fires (`circuitResetFire`), a single failed flush does NOT transition the
breaker back to open: the circuit stays closed, the failure counter is 1,
and the event trace schedules an ordinary backoff retry — no new 60 s
circuit reset. -/
theorem halfopen_failure_counterexample :
    ((flushQueue cfgLive (circuitResetFire openedState).1 0 false false
        (FetchResult.httpError 500 "err") 0).1.circuitOpen = false)
  ∧ ((flushQueue cfgLive (circuitResetFire openedState).1 0 false false
        (FetchResult.httpError 500 "err") 0).1.consecutiveFailures = 1)
  ∧ ((flushQueue cfgLive (circuitResetFire openedState).1 0 false false
        (FetchResult.httpError 500 "err") 0).2
      = [Event.post [entryA],
         Event.onSendFailure "HTTP 500: err" [entryA],
         Event.scheduleRetry 1000 1,
         Event.processQueue]) :=
  ⟨by decide, by decide, by decide⟩

/-- C3 (amended): when the 60 s reset fires the breaker closes with the
failure counter zeroed and a flush is attempted; from that state a failed
flush leaves the circuit closed with the counter at 1 (an ordinary retry
path), and a successful flush keeps it closed at 0 — the circuit re-opens
only once 5 consecutive failures accumulate again. -/
theorem halfopen_amended (cfg : Config) (s : DeliveryState)
    (retries jitter status : Nat) (body : String)
    (hsend : s.isSending = false) (hdsn : cfg.dsn ≠ none)
    (hidb : s.hasIndexedDB = true) (hne : s.idb ≠ []) (hbs : 0 < cfg.batchSize) :
    ((circuitResetFire s).1.circuitOpen = false)
  ∧ ((circuitResetFire s).1.consecutiveFailures = 0)
  ∧ ((flushQueue cfg (circuitResetFire s).1 retries false false
        (FetchResult.httpError status body) jitter).1.circuitOpen = false)
  ∧ ((flushQueue cfg (circuitResetFire s).1 retries false false
        (FetchResult.httpError status body) jitter).1.consecutiveFailures = 1)
  ∧ ((flushQueue cfg (circuitResetFire s).1 retries false false
        FetchResult.ok jitter).1.circuitOpen = false)
  ∧ ((flushQueue cfg (circuitResetFire s).1 retries false false
        FetchResult.ok jitter).1.consecutiveFailures = 0) := by
  have hropen : (circuitResetFire s).1.circuitOpen = false := rfl
  have hrfail : (circuitResetFire s).1.consecutiveFailures = 0 := rfl
  have hrsend : (circuitResetFire s).1.isSending = false := hsend
  have hridb : (circuitResetFire s).1.hasIndexedDB = true := hidb
  have hrne : (circuitResetFire s).1.idb ≠ [] := hne
  obtain ⟨he1, he2, _, _, _, _⟩ :=
    flushQueue_httpError_effect cfg (circuitResetFire s).1 retries jitter status body
      hrsend hropen hdsn hridb hrne hbs
  obtain ⟨ho1, ho2⟩ :=
    flushQueue_ok_effect cfg (circuitResetFire s).1 retries jitter
      hrsend hropen hdsn hridb hrne hbs
  refine ⟨hropen, hrfail, ?_, ?_, ho2, ho1⟩
  · rw [he2, hrfail]
    rfl
  · rw [he1, hrfail]

theorem halfopen_amended_witness :
    (openedState.isSending = false ∧ cfgLive.dsn ≠ none
      ∧ openedState.hasIndexedDB = true ∧ openedState.idb ≠ [] ∧ 0 < cfgLive.batchSize)
    ∧ (((circuitResetFire openedState).1.circuitOpen = false)
      ∧ ((circuitResetFire openedState).1.consecutiveFailures = 0)
      ∧ ((flushQueue cfgLive (circuitResetFire openedState).1 0 false false
            (FetchResult.httpError 500 "err") 0).1.circuitOpen = false)
      ∧ ((flushQueue cfgLive (circuitResetFire openedState).1 0 false false
            (FetchResult.httpError 500 "err") 0).1.consecutiveFailures = 1)
      ∧ ((flushQueue cfgLive (circuitResetFire openedState).1 0 false false
            FetchResult.ok 0).1.circuitOpen = false)
      ∧ ((flushQueue cfgLive (circuitResetFire openedState).1 0 false false
            FetchResult.ok 0).1.consecutiveFailures = 0)) :=
  ⟨⟨rfl, by decide, rfl, by decide, by decide⟩,
   halfopen_amended cfgLive openedState 0 0 500 "err" rfl (by decide) rfl (by decide) (by decide)⟩

end Eaglet
namespace Eaglet

/-- The state after one flush whose POST fulfilled with HTTP
`status`/`body` (retries 0, not unloading, zero jitter). -/
def failedFlushState (cfg : Config) (status : Nat) (body : String)
    (s : DeliveryState) : DeliveryState :=
  (flushQueue cfg s 0 false false (FetchResult.httpError status body) 0).1

/-- C5: from a healthy state with persisted records, five consecutive
failed flushes open the circuit, the fifth arming the 60 s reset timer;
while the circuit is open every `flushQueue` call returns immediately
with no events — nothing is posted and neither the durable store nor the
in-memory queue is consumed; and the reset-timer callback closes the
circuit, clears the failure counter and requests the next flush. -/
theorem circuit_breaker_spec (cfg : Config) (s : DeliveryState) (status : Nat) (body : String)
    (hsend : s.isSending = false) (hopen : s.circuitOpen = false)
    (hfail : s.consecutiveFailures = 0) (hdsn : cfg.dsn ≠ none)
    (hidb : s.hasIndexedDB = true) (hne : s.idb ≠ []) (hbs : 0 < cfg.batchSize) :
    ((failedFlushState cfg status body
        (failedFlushState cfg status body
          (failedFlushState cfg status body
            (failedFlushState cfg status body
              (failedFlushState cfg status body s))))).circuitOpen = true)
  ∧ (Event.scheduleCircuitReset CIRCUIT_BREAKER_RESET_DELAY
      ∈ (flushQueue cfg
          (failedFlushState cfg status body
            (failedFlushState cfg status body
              (failedFlushState cfg status body
                (failedFlushState cfg status body s)))) 0 false false
          (FetchResult.httpError status body) 0).2)
  ∧ (∀ (s2 : DeliveryState) (retries : Nat) (isUnload beaconQueued : Bool)
        (fetched : FetchResult) (jitter : Nat), s2.circuitOpen = true →
      flushQueue cfg s2 retries isUnload beaconQueued fetched jitter = (s2, []))
  ∧ (∀ s2 : DeliveryState, (circuitResetFire s2).1.circuitOpen = false
      ∧ (circuitResetFire s2).1.consecutiveFailures = 0
      ∧ Event.flushRequested ∈ (circuitResetFire s2).2) := by
  have hstep : ∀ s2 : DeliveryState, s2.isSending = false → s2.circuitOpen = false →
      s2.hasIndexedDB = true → s2.idb = s.idb →
      (failedFlushState cfg status body s2).consecutiveFailures = s2.consecutiveFailures + 1
      ∧ (failedFlushState cfg status body s2).circuitOpen
          = decide (CIRCUIT_BREAKER_THRESHOLD ≤ s2.consecutiveFailures + 1)
      ∧ (failedFlushState cfg status body s2).isSending = false
      ∧ (failedFlushState cfg status body s2).hasIndexedDB = true
      ∧ (failedFlushState cfg status body s2).idb = s.idb := by
    intro s2 h1 h2 h3 h4
    have hne2 : s2.idb ≠ [] := h4 ▸ hne
    obtain ⟨a, b, c, d, e, _⟩ :=
      flushQueue_httpError_effect cfg s2 0 0 status body h1 h2 hdsn h3 hne2 hbs
    exact ⟨a, b, c, d, e.trans h4⟩
  have i1 := hstep s hsend hopen hidb rfl
  have f1 : (failedFlushState cfg status body s).consecutiveFailures = 1 := by
    rw [i1.1, hfail]
  have o1 : (failedFlushState cfg status body s).circuitOpen = false := by
    rw [i1.2.1, hfail]
    rfl
  have i2 := hstep _ i1.2.2.1 o1 i1.2.2.2.1 i1.2.2.2.2
  have f2 : (failedFlushState cfg status body
      (failedFlushState cfg status body s)).consecutiveFailures = 2 := by
    rw [i2.1, f1]
  have o2 : (failedFlushState cfg status body
      (failedFlushState cfg status body s)).circuitOpen = false := by
    rw [i2.2.1, f1]
    rfl
  have i3 := hstep _ i2.2.2.1 o2 i2.2.2.2.1 i2.2.2.2.2
  have f3 : (failedFlushState cfg status body (failedFlushState cfg status body
      (failedFlushState cfg status body s))).consecutiveFailures = 3 := by
    rw [i3.1, f2]
  have o3 : (failedFlushState cfg status body (failedFlushState cfg status body
      (failedFlushState cfg status body s))).circuitOpen = false := by
    rw [i3.2.1, f2]
    rfl
  have i4 := hstep _ i3.2.2.1 o3 i3.2.2.2.1 i3.2.2.2.2
  have f4 : (failedFlushState cfg status body (failedFlushState cfg status body
      (failedFlushState cfg status body
        (failedFlushState cfg status body s)))).consecutiveFailures = 4 := by
    rw [i4.1, f3]
  have o4 : (failedFlushState cfg status body (failedFlushState cfg status body
      (failedFlushState cfg status body
        (failedFlushState cfg status body s)))).circuitOpen = false := by
    rw [i4.2.1, f3]
    rfl
  have i5 := hstep _ i4.2.2.1 o4 i4.2.2.2.1 i4.2.2.2.2
  have hne4 : (failedFlushState cfg status body (failedFlushState cfg status body
      (failedFlushState cfg status body
        (failedFlushState cfg status body s)))).idb ≠ [] := i4.2.2.2.2 ▸ hne
  obtain ⟨_, _, _, _, _, hmem⟩ :=
    flushQueue_httpError_effect cfg
      (failedFlushState cfg status body (failedFlushState cfg status body
        (failedFlushState cfg status body
          (failedFlushState cfg status body s)))) 0 0 status body
      i4.2.2.1 o4 hdsn i4.2.2.2.1 hne4 hbs
  refine ⟨?_, ?_, ?_, ?_⟩
  · rw [i5.2.1, f4]
    rfl
  · refine hmem ?_
    rw [f4]
    decide
  · intro s2 retries isUnload beaconQueued fetched jitter h2
    exact flushQueue_circuitOpen cfg s2 retries isUnload beaconQueued fetched jitter h2
  · intro s2
    exact ⟨rfl, rfl, by simp [circuitResetFire]⟩

theorem circuit_breaker_spec_witness :
    (baseState.isSending = false ∧ baseState.circuitOpen = false
      ∧ baseState.consecutiveFailures = 0 ∧ cfgLive.dsn ≠ none
      ∧ baseState.hasIndexedDB = true ∧ baseState.idb ≠ [] ∧ 0 < cfgLive.batchSize)
    ∧ ((failedFlushState cfgLive 500 "err"
          (failedFlushState cfgLive 500 "err"
            (failedFlushState cfgLive 500 "err"
              (failedFlushState cfgLive 500 "err"
                (failedFlushState cfgLive 500 "err" baseState)))))).circuitOpen = true :=
  ⟨⟨rfl, rfl, rfl, by decide, rfl, by decide, by decide⟩,
   (circuit_breaker_spec cfgLive baseState 500 "err" rfl rfl rfl (by decide) rfl
      (by decide) (by decide)).1⟩

end Eaglet
namespace Eaglet

/-!
## Enqueue-and-persist step of `captureLog` (collector.ts lines 669-693)
-/

/-- The enqueue-and-persist step of `captureLog`, collector.ts lines
669-693, in the IndexedDB configuration.  The accepted record is pushed
onto the queue; `logsToPersist` copies the whole queue and the queue is
cleared; the batch write is awaited (its success and the records pushed by
events arriving during the suspension are parameters).  On failure the
catch at line 683 runs `this.logQueue.unshift(...this.logQueue)` —
spreading the *current* queue (only the awaited-arrival records) onto
itself — and then attempts the localStorage fallback when enabled.
Returns the resulting in-memory queue and whether the fallback write was
attempted. -/
def persistEnqueue (logQueue : List LogEntry) (entry : LogEntry) (writeOk : Bool)
    (arrivalsDuringAwait : List LogEntry) (lsEnabled : Bool) : List LogEntry × Bool :=
  let _logsToPersist := logQueue ++ [entry]
  let queueAtResume := arrivalsDuringAwait
  if writeOk then (queueAtResume, false)
  else (queueAtResume ++ queueAtResume, lsEnabled)

/-- C2 (code evidence): when the IndexedDB batch write fails, the failed
batch is NOT re-prepended to the in-memory queue: every record of the
batch `logQueue ++ [entry]` that did not independently arrive during the
await is absent from the resulting queue, because the catch re-prepends
the already-cleared queue to itself instead of `logsToPersist` — contrary
to its own comment "Re-add failed logs to queue".  The localStorage
fallback is attempted exactly when enabled. -/
theorem persist_failure_batch_lost (logQueue : List LogEntry) (entry : LogEntry)
    (arrivals : List LogEntry) (lsEnabled : Bool) (e : LogEntry)
    (hbatch : e ∈ logQueue ++ [entry]) (hnew : e ∉ arrivals) :
    e ∉ (persistEnqueue logQueue entry false arrivals lsEnabled).1
  ∧ (persistEnqueue logQueue entry false arrivals lsEnabled).2 = lsEnabled := by
  refine ⟨?_, rfl⟩
  simp [persistEnqueue, hnew]

theorem persist_failure_batch_lost_witness :
    (entryA ∈ ([] : List LogEntry) ++ [entryA] ∧ entryA ∉ ([] : List LogEntry))
    ∧ (entryA ∉ (persistEnqueue [] entryA false [] false).1
      ∧ (persistEnqueue [] entryA false [] false).2 = false) :=
  ⟨⟨by decide, by decide⟩,
   persist_failure_batch_lost [] entryA [] false entryA (by decide) (by decide)⟩

end Eaglet
